import Mathlib

/-
A verification development for the dorry-backend retrieval-augmented
generation service.  The TypeScript sources are embedded shallowly:
JS strings become lists of characters, external collaborators (embedding
model, generative model, vector store scoring, JSON parser, regex engine,
date parser, blob store, relational store) become explicit oracle
parameters, and the stateful route handlers and background pipelines
become pure state-passing functions.
-/

namespace Dorry

/-- JS strings are modelled as lists of characters. -/
abbrev Str := List Char

/-- Whitespace characters recognised by the regex class used in
`chunkText` and by `String.prototype.trim` (the ASCII portion of JS
whitespace). -/
def isWs (c : Char) : Bool :=
  c == ' ' || c == '\t' || c == '\n' || c == '\r' || c == '\x0b' || c == '\x0c'

/-- The `replace` step of `chunkText` (embedding.service.ts line 28):
every maximal run of whitespace characters is replaced by one space. -/
def collapseWs : Str → Str
  | [] => []
  | c :: rest =>
    if isWs c then
      match rest with
      | [] => [' ']
      | d :: rest2 =>
        if isWs d then collapseWs (d :: rest2) else ' ' :: collapseWs (d :: rest2)
    else c :: collapseWs rest

/-- `String.prototype.trim`: remove leading and trailing whitespace. -/
def trimChars (l : Str) : Str :=
  ((l.dropWhile isWs).reverse.dropWhile isWs).reverse

/-- `normalized.split(" ")` with a one-character separator: fields between
single spaces, empty fields preserved, one field for the empty string. -/
def splitOnSpace : Str → List Str
  | [] => [[]]
  | c :: rest =>
    if c == ' ' then [] :: splitOnSpace rest
    else
      match splitOnSpace rest with
      | [] => [[c]]
      | w :: ws => (c :: w) :: ws

/-- `Array.prototype.join` with a one-character separator. -/
def joinWith (sep : Char) : List Str → Str
  | [] => []
  | [w] => w
  | w :: ws => w ++ sep :: joinWith sep ws

/-- Fuel-indexed version of the slicing loop of `chunkText`
(`for (let i = 0; i < words.length; i += chunkSize) chunks.push(words.slice(i, i + chunkSize))`).
The fuel argument only forces structural termination; `chunksOf` below
instantiates it with the length of the list, which always suffices. -/
def chunksOfFuel (n : Nat) : Nat → List α → List (List α)
  | _, [] => []
  | 0, l => [l]
  | fuel + 1, x :: xs => (x :: xs.take (n - 1)) :: chunksOfFuel n fuel (xs.drop (n - 1))

/-- The slicing loop of `chunkText`: successive groups of `n` elements,
the last group possibly shorter.  For `n ≥ 1` this is exactly the source
loop; the source loop does not terminate for `n = 0`, so every theorem
below assumes a positive chunk size. -/
def chunksOf (n : Nat) (l : List α) : List (List α) :=
  chunksOfFuel n l.length l

/-- `chunkText` (embedding.service.ts lines 27-39): normalize whitespace,
trim, return no chunks for an empty result, otherwise split into words on
single spaces and join each group of `chunkSize` words back with spaces.
The source default for `chunkSize` is 300; callers here always pass it
explicitly. -/
def chunkText (text : Str) (chunkSize : Nat) : List Str :=
  let normalized := trimChars (collapseWs text)
  if normalized = [] then []
  else (chunksOf chunkSize (splitOnSpace normalized)).map (joinWith ' ')

/-- The number of space-separated words of a chunk string. -/
def numWords (s : Str) : Nat :=
  (splitOnSpace s).length

/-- The fuel argument of `chunksOfFuel` is irrelevant once it covers the
length of the list. -/
theorem chunksOfFuel_congr (n : Nat) :
    ∀ (f g : Nat) (l : List α), l.length ≤ f → l.length ≤ g →
      chunksOfFuel n f l = chunksOfFuel n g l := by
  intro f
  induction f with
  | zero =>
    intro g l hf _
    have hl : l = [] := List.eq_nil_of_length_eq_zero (Nat.le_zero.mp hf)
    subst hl
    cases g <;> rfl
  | succ f ih =>
    intro g l hf hg
    cases l with
    | nil => cases g <;> rfl
    | cons x xs =>
      cases g with
      | zero => simp at hg
      | succ g =>
        simp only [chunksOfFuel]
        congr 1
        apply ih
        · rw [List.length_drop]
          simp only [List.length_cons] at hf
          omega
        · rw [List.length_drop]
          simp only [List.length_cons] at hg
          omega

theorem chunksOf_nil (n : Nat) : chunksOf n ([] : List α) = [] := rfl

theorem chunksOf_cons (n : Nat) (x : α) (xs : List α) :
    chunksOf n (x :: xs) = (x :: xs.take (n - 1)) :: chunksOf n (xs.drop (n - 1)) := by
  show chunksOfFuel n (x :: xs).length (x :: xs) = _
  simp only [List.length_cons, chunksOfFuel]
  congr 1
  exact chunksOfFuel_congr n xs.length (xs.drop (n - 1)).length (xs.drop (n - 1))
    (by rw [List.length_drop]; omega) le_rfl

/-- Concatenating the groups gives back the original list. -/
theorem chunksOf_flatten (n : Nat) (l : List α) : (chunksOf n l).flatten = l := by
  have key : ∀ (N : Nat) (l : List α), l.length ≤ N → (chunksOf n l).flatten = l := by
    intro N
    induction N with
    | zero =>
      intro l h
      have hl : l = [] := List.eq_nil_of_length_eq_zero (Nat.le_zero.mp h)
      subst hl; rfl
    | succ N ih =>
      intro l h
      cases l with
      | nil => rfl
      | cons x xs =>
        rw [chunksOf_cons, List.flatten_cons,
          ih (xs.drop (n - 1)) (by rw [List.length_drop]; simp only [List.length_cons] at h; omega)]
        simp [List.take_append_drop]
  exact key l.length l le_rfl

/-- Every group produced by the slicing loop is nonempty. -/
theorem chunksOf_ne_nil (n : Nat) (l : List α) : ∀ g ∈ chunksOf n l, g ≠ [] := by
  have key : ∀ (N : Nat) (l : List α), l.length ≤ N → ∀ g ∈ chunksOf n l, g ≠ [] := by
    intro N
    induction N with
    | zero =>
      intro l h
      have hl : l = [] := List.eq_nil_of_length_eq_zero (Nat.le_zero.mp h)
      subst hl
      intro g hg
      rw [chunksOf_nil] at hg
      simp at hg
    | succ N ih =>
      intro l h g hg
      cases l with
      | nil =>
        rw [chunksOf_nil] at hg
        simp at hg
      | cons x xs =>
        rw [chunksOf_cons] at hg
        rcases List.mem_cons.mp hg with h1 | h2
        · subst h1; simp
        · exact ih (xs.drop (n - 1))
            (by rw [List.length_drop]; simp only [List.length_cons] at h; omega) g h2
  exact key l.length l le_rfl

theorem chunksOf_eq_nil_iff (n : Nat) (l : List α) : chunksOf n l = [] ↔ l = [] := by
  cases l with
  | nil => simp [chunksOf_nil]
  | cons x xs => rw [chunksOf_cons]; simp

/-- With a positive chunk size, every group except possibly the last has
exactly `n` elements. -/
theorem chunksOf_dropLast_length (n : Nat) (hn : 0 < n) (l : List α) :
    ∀ g ∈ (chunksOf n l).dropLast, g.length = n := by
  have key : ∀ (N : Nat) (l : List α), l.length ≤ N →
      ∀ g ∈ (chunksOf n l).dropLast, g.length = n := by
    intro N
    induction N with
    | zero =>
      intro l h
      have hl : l = [] := List.eq_nil_of_length_eq_zero (Nat.le_zero.mp h)
      subst hl
      intro g hg
      rw [chunksOf_nil] at hg
      simp at hg
    | succ N ih =>
      intro l h g hg
      cases l with
      | nil =>
        rw [chunksOf_nil] at hg
        simp at hg
      | cons x xs =>
        rw [chunksOf_cons] at hg
        cases hrest : chunksOf n (xs.drop (n - 1)) with
        | nil => rw [hrest] at hg; simp at hg
        | cons r rs =>
          rw [hrest, List.dropLast_cons₂] at hg
          rcases List.mem_cons.mp hg with h1 | h2
          · subst h1
            have hxs : xs.drop (n - 1) ≠ [] := by
              intro hc
              rw [hc] at hrest
              simp [chunksOf_nil] at hrest
            have hlen : n - 1 ≤ xs.length := by
              by_contra hlt
              push_neg at hlt
              exact hxs (List.drop_eq_nil_of_le (by omega))
            simp only [List.length_cons, List.length_take]
            omega
          · rw [← hrest] at h2
            exact ih (xs.drop (n - 1))
              (by rw [List.length_drop]; simp only [List.length_cons] at h; omega) g h2
  exact key l.length l le_rfl

theorem joinWith_cons_cons (sep : Char) (w w2 : Str) (ws : List Str) :
    joinWith sep (w :: w2 :: ws) = w ++ sep :: joinWith sep (w2 :: ws) := rfl

theorem splitOnSpace_ne_nil (l : Str) : splitOnSpace l ≠ [] := by
  cases l with
  | nil => simp [splitOnSpace]
  | cons c rest =>
    simp only [splitOnSpace]
    split
    · simp
    · split <;> simp

/-- Joining the fields of a split on spaces restores the string. -/
theorem joinWith_splitOnSpace (l : Str) : joinWith ' ' (splitOnSpace l) = l := by
  induction l with
  | nil => rfl
  | cons c rest ih =>
    simp only [splitOnSpace]
    by_cases h : c = ' '
    · subst h
      rw [if_pos (by rfl)]
      cases hs : splitOnSpace rest with
      | nil => exact absurd hs (splitOnSpace_ne_nil rest)
      | cons w ws =>
        rw [joinWith_cons_cons]
        show ' ' :: joinWith ' ' (w :: ws) = ' ' :: rest
        rw [← hs, ih]
    · rw [if_neg (by simpa using h)]
      cases hs : splitOnSpace rest with
      | nil => exact absurd hs (splitOnSpace_ne_nil rest)
      | cons w ws =>
        cases ws with
        | nil =>
          show c :: w = c :: rest
          have : joinWith ' ' [w] = rest := by rw [← hs, ih]
          simpa using this
        | cons w2 ws2 =>
          rw [joinWith_cons_cons]
          show c :: (w ++ ' ' :: joinWith ' ' (w2 :: ws2)) = c :: rest
          rw [← joinWith_cons_cons, ← hs, ih]

/-- No field produced by splitting on spaces contains a space. -/
theorem splitOnSpace_no_space (l : Str) : ∀ w ∈ splitOnSpace l, ' ' ∉ w := by
  induction l with
  | nil => simp [splitOnSpace]
  | cons c rest ih =>
    intro w hw
    simp only [splitOnSpace] at hw
    by_cases h : c = ' '
    · subst h
      rw [if_pos (by rfl)] at hw
      rcases List.mem_cons.mp hw with h1 | h2
      · subst h1; simp
      · exact ih w h2
    · rw [if_neg (by simpa using h)] at hw
      cases hs : splitOnSpace rest with
      | nil => exact absurd hs (splitOnSpace_ne_nil rest)
      | cons v vs =>
        rw [hs] at hw
        rcases List.mem_cons.mp hw with h1 | h2
        · subst h1
          intro hmem
          rcases List.mem_cons.mp hmem with h3 | h4
          · exact h h3.symm
          · exact ih v (by rw [hs]; simp) h4
        · exact ih w (by rw [hs]; simp [h2])

/-- A space-free string splits into a single field. -/
theorem splitOnSpace_of_no_space (w : Str) (h : ' ' ∉ w) : splitOnSpace w = [w] := by
  induction w with
  | nil => rfl
  | cons c rest ih =>
    have hc : ¬ c = ' ' := fun hc => h (by simp [hc])
    simp only [splitOnSpace]
    rw [if_neg (by simpa using hc)]
    rw [ih (fun hm => h (by simp [hm]))]

theorem splitOnSpace_append_space (w t : Str) (h : ' ' ∉ w) :
    splitOnSpace (w ++ ' ' :: t) = w :: splitOnSpace t := by
  induction w with
  | nil =>
    show splitOnSpace (' ' :: t) = [] :: splitOnSpace t
    simp [splitOnSpace]
  | cons c rest ih =>
    have hc : ¬ c = ' ' := fun hc => h (by simp [hc])
    show splitOnSpace (c :: (rest ++ ' ' :: t)) = (c :: rest) :: splitOnSpace t
    simp only [splitOnSpace]
    rw [if_neg (by simpa using hc), ih (fun hm => h (by simp [hm]))]

/-- Splitting the space-join of space-free fields restores the fields. -/
theorem splitOnSpace_joinWith (gs : List Str) (hne : gs ≠ []) (h : ∀ w ∈ gs, ' ' ∉ w) :
    splitOnSpace (joinWith ' ' gs) = gs := by
  induction gs with
  | nil => exact absurd rfl hne
  | cons w ws ih =>
    cases ws with
    | nil => exact splitOnSpace_of_no_space w (h w (by simp))
    | cons w2 ws2 =>
      rw [joinWith_cons_cons, splitOnSpace_append_space _ _ (h w (by simp)),
        ih (by simp) (fun x hx => h x (by simp [hx]))]

theorem joinWith_append (sep : Char) (ws1 ws2 : List Str) (h1 : ws1 ≠ []) (h2 : ws2 ≠ []) :
    joinWith sep (ws1 ++ ws2) = joinWith sep ws1 ++ sep :: joinWith sep ws2 := by
  induction ws1 with
  | nil => exact absurd rfl h1
  | cons w ws ih =>
    cases ws with
    | nil =>
      cases ws2 with
      | nil => exact absurd rfl h2
      | cons v vs => rw [List.singleton_append, joinWith_cons_cons]; rfl
    | cons u us =>
      rw [List.cons_append]
      have htail : (u :: us) ++ ws2 = u :: (us ++ ws2) := List.cons_append u us ws2
      rw [htail]
      rw [joinWith_cons_cons sep w u (us ++ ws2)]
      rw [← htail, ih (by simp)]
      rw [joinWith_cons_cons]
      simp [List.append_assoc]

/-- Joining space-joined nonempty groups equals space-joining the
flattened groups. -/
theorem joinWith_map_joinWith (gs : List (List Str)) (h : ∀ g ∈ gs, g ≠ []) :
    joinWith ' ' (gs.map (joinWith ' ')) = joinWith ' ' gs.flatten := by
  induction gs with
  | nil => rfl
  | cons g gs2 ih =>
    cases gs2 with
    | nil =>
      show joinWith ' ' [joinWith ' ' g] = joinWith ' ' (g ++ [])
      rw [List.append_nil]
      rfl
    | cons g2 gs3 =>
      have hg : g ≠ [] := h g (by simp)
      have hflat : (g2 :: gs3).flatten ≠ [] := by
        have hg2 : g2 ≠ [] := h g2 (by simp)
        cases g2 with
        | nil => exact absurd rfl hg2
        | cons a as => simp
      have hih : joinWith ' ' ((g2 :: gs3).map (joinWith ' '))
          = joinWith ' ' (g2 :: gs3).flatten :=
        ih (fun x hx => h x (by simp [hx]))
      calc joinWith ' ' ((g :: g2 :: gs3).map (joinWith ' '))
          = joinWith ' ' g ++ ' ' :: joinWith ' ' ((g2 :: gs3).map (joinWith ' ')) := by
            simp only [List.map_cons]
            rw [joinWith_cons_cons]
        _ = joinWith ' ' g ++ ' ' :: joinWith ' ' (g2 :: gs3).flatten := by rw [hih]
        _ = joinWith ' ' (g ++ (g2 :: gs3).flatten) :=
            (joinWith_append ' ' g (g2 :: gs3).flatten hg hflat).symm
        _ = joinWith ' ' (g :: g2 :: gs3).flatten := by simp [List.flatten_cons]

/-- Collapsing an all-whitespace string leaves nothing or one space. -/
theorem collapseWs_of_all_ws (l : Str) (h : ∀ c ∈ l, isWs c = true) :
    collapseWs l = [] ∨ collapseWs l = [' '] := by
  induction l with
  | nil => left; rfl
  | cons c rest ih =>
    have hc : isWs c = true := h c (by simp)
    cases rest with
    | nil => right; simp [collapseWs, hc]
    | cons d rest2 =>
      have hd : isWs d = true := h d (by simp)
      have hih := ih (fun x hx => h x (by simp [hx]))
      simp only [collapseWs, hc, hd, if_true]
      exact hih

/-- Trimming removes everything exactly when the string is all whitespace. -/
theorem trimChars_eq_nil_iff (l : Str) : trimChars l = [] ↔ ∀ c ∈ l, isWs c = true := by
  unfold trimChars
  constructor
  · intro h c hc
    have h1 : (l.dropWhile isWs).reverse.dropWhile isWs = [] := by
      rwa [List.reverse_eq_nil_iff] at h
    have h2 : ∀ x ∈ (l.dropWhile isWs).reverse, isWs x = true :=
      List.dropWhile_eq_nil_iff.mp h1
    have h3 : ∀ x ∈ l.dropWhile isWs, isWs x = true := by
      intro x hx
      exact h2 x (List.mem_reverse.mpr hx)
    have hsplit : l.takeWhile isWs ++ l.dropWhile isWs = l :=
      List.takeWhile_append_dropWhile isWs l
    rw [← hsplit] at hc
    rcases List.mem_append.mp hc with h4 | h4
    · exact List.mem_takeWhile_imp h4
    · exact h3 c h4
  · intro h
    have h1 : l.dropWhile isWs = [] := List.dropWhile_eq_nil_iff.mpr h
    rw [h1]
    rfl

theorem chunkText_reconstructs (text : Str) (n : Nat) :
    joinWith ' ' (chunkText text n) = trimChars (collapseWs text) := by
  unfold chunkText
  by_cases h : trimChars (collapseWs text) = []
  · rw [if_pos h, h]
    rfl
  · rw [if_neg h]
    rw [joinWith_map_joinWith _ (chunksOf_ne_nil _ _), chunksOf_flatten,
      joinWith_splitOnSpace]

theorem chunkText_wordCounts (text : Str) (n : Nat) (hn : 0 < n) :
    ∀ c ∈ (chunkText text n).dropLast, numWords c = n := by
  intro c hc
  unfold chunkText at hc
  by_cases h : trimChars (collapseWs text) = []
  · rw [if_pos h] at hc
    simp at hc
  · rw [if_neg h] at hc
    rw [← List.map_dropLast] at hc
    obtain ⟨g, hg, rfl⟩ := List.mem_map.mp hc
    have hgchunks : g ∈ chunksOf n (splitOnSpace (trimChars (collapseWs text))) :=
      List.dropLast_subset _ hg
    have hglen : g.length = n := chunksOf_dropLast_length n hn _ g hg
    have hgne : g ≠ [] := chunksOf_ne_nil n _ g hgchunks
    have hnospace : ∀ w ∈ g, ' ' ∉ w := by
      intro w hw
      have hwmem : w ∈ splitOnSpace (trimChars (collapseWs text)) := by
        rw [← chunksOf_flatten n (splitOnSpace (trimChars (collapseWs text)))]
        exact List.mem_flatten.mpr ⟨g, hgchunks, hw⟩
      exact splitOnSpace_no_space _ w hwmem
    unfold numWords
    rw [splitOnSpace_joinWith g hgne hnospace, hglen]

theorem chunkText_of_all_ws (text : Str) (n : Nat) (h : ∀ c ∈ text, isWs c = true) :
    chunkText text n = [] := by
  unfold chunkText
  have htrim : trimChars (collapseWs text) = [] := by
    rw [trimChars_eq_nil_iff]
    intro c hc
    rcases collapseWs_of_all_ws text h with h1 | h1 <;> rw [h1] at hc
    · simp at hc
    · simp at hc
      subst hc
      rfl
  rw [if_pos htrim]


/-- C2: for every input text and positive chunk size (default 300), joining
the chunks of `chunkText` with a single space reconstructs the
whitespace-normalized, trimmed input; every chunk except possibly the last
has exactly `chunkSize` words; and whitespace-only input yields no chunks. -/
theorem chunkText_spec (text : Str) (n : Nat) (hn : 0 < n) :
    joinWith ' ' (chunkText text n) = trimChars (collapseWs text)
      ∧ (∀ c ∈ (chunkText text n).dropLast, numWords c = n)
      ∧ ((∀ c ∈ text, isWs c = true) → chunkText text n = []) :=
  ⟨chunkText_reconstructs text n, chunkText_wordCounts text n hn, chunkText_of_all_ws text n⟩

/-- Instantiation of `chunkText_spec` at a concrete text and chunk size. -/
theorem chunkText_spec_witness :
    0 < 2 ∧
      (joinWith ' ' (chunkText "  hello   world again ".data 2)
          = trimChars (collapseWs "  hello   world again ".data)
        ∧ (∀ c ∈ (chunkText "  hello   world again ".data 2).dropLast, numWords c = 2)
        ∧ ((∀ c ∈ "  hello   world again ".data, isWs c = true)
            → chunkText "  hello   world again ".data 2 = [])) :=
  ⟨by decide, chunkText_spec "  hello   world again ".data 2 (by decide)⟩


/-- The sentinel failure-marker prefix written by the PDF pipeline on
failure and tested by the document read endpoint. -/
def failureMarker : Str := "Processing failed:".data

/-- The status computation of the `GET /:documentId` handler
(document.routes.ts lines 129-142): for a pdf document, empty or
whitespace-only content means processing, a content with the
failure-marker prefix means failed, anything else means ready; for any
other file type the status is always ready. -/
def computeStatus (fileType content : Str) : Str :=
  if fileType = "pdf".data then
    if trimChars content = [] then "processing".data
    else if failureMarker.isPrefixOf content then "failed".data
    else "ready".data
  else "ready".data

/-- The kind-independent status rule exactly as the claim words it: empty
content means processing, a failure-marker prefix means failed, otherwise
ready, for every document. -/
def claimedStatus (content : Str) : Str :=
  if content = [] then "processing".data
  else if failureMarker.isPrefixOf content then "failed".data
  else "ready".data

/-- The amended derivation rule: the status depends only on whether the
document is a pdf, whether its content is empty after trimming, and
whether the content carries the failure marker; the processing and failed
outcomes apply to pdf documents only. -/
def derivedStatusSpec (isPdf contentTrimEmpty hasMarker : Bool) : Str :=
  if isPdf then
    if contentTrimEmpty then "processing".data
    else if hasMarker then "failed".data
    else "ready".data
  else "ready".data

/-- C3 counterexample: a text document whose content starts with the
failure marker is reported ready by the handler, while the claimed
kind-independent rule demands failed. -/
theorem computeStatus_counterexample :
    computeStatus "text".data "Processing failed: boom".data = "ready".data
      ∧ claimedStatus "Processing failed: boom".data = "failed".data
      ∧ "ready".data ≠ "failed".data := by
  refine ⟨by decide, by decide, by decide⟩

/-- C3 (amended): the status reported by the read endpoint is a pure
function of the file kind and the content, through the derived
observations only: for pdf documents, trim-empty content means
processing, a failure-marker prefix means failed, otherwise ready; for
every other file kind the status is ready regardless of content. -/
theorem computeStatus_spec (fileType content : Str) :
    computeStatus fileType content
      = derivedStatusSpec (decide (fileType = "pdf".data))
          (decide (trimChars content = [])) (failureMarker.isPrefixOf content) := by
  by_cases h1 : fileType = "pdf".data <;>
    by_cases h2 : trimChars content = [] <;>
    by_cases h3 : failureMarker.isPrefixOf content = true <;>
    simp [computeStatus, derivedStatusSpec, h1, h2, h3]

/-- A point payload as written by `storeChunksInQdrant`. -/
structure Payload where
  user_id : Str
  document_id : Str
  chunk_id : Str
  text : Str
  source_type : Str
  created_at : Str
deriving DecidableEq

/-- A stored vector point. -/
structure Point where
  id : Str
  vector : List Int
  payload : Payload
deriving DecidableEq

/-- One `must` condition of a qdrant filter: a payload key matches a value. -/
structure FilterCond where
  key : Str
  value : Str
deriving DecidableEq

/-- Payload field lookup by key (the keys used by the service). -/
def payloadField (p : Payload) (key : Str) : Str :=
  if key = "user_id".data then p.user_id
  else if key = "document_id".data then p.document_id
  else if key = "chunk_id".data then p.chunk_id
  else if key = "text".data then p.text
  else if key = "source_type".data then p.source_type
  else p.created_at

/-- A point matches a filter when every must condition holds. -/
def matchesFilter (must : List FilterCond) (p : Point) : Bool :=
  must.all fun c => payloadField p.payload c.key == c.value

/-- Qdrant search over an explicit point list: keep the points matching
the filter, order them by descending similarity against the query vector,
return the first `limit`.  The similarity function of the store (cosine in
the deployment) is an abstract parameter. -/
def qdrantSearch (sim : List Int → List Int → Int) (store : List Point)
    (queryVector : List Int) (limit : Nat) (must : List FilterCond) : List Point :=
  ((store.filter (matchesFilter must)).mergeSort
    (fun a b => decide (sim queryVector b.vector ≤ sim queryVector a.vector))).take limit

/-- The points returned by `searchSimilarChunks` (qdrant.service.ts lines
61-97) before projection: the query text is embedded and the search is
restricted by a must condition on the `user_id` of the requesting tenant. -/
def searchSimilarChunksPoints (sim : List Int → List Int → Int) (embed : Str → List Int)
    (store : List Point) (userId queryText : Str) (limit : Nat) : List Point :=
  qdrantSearch sim store (embed queryText) limit [{ key := "user_id".data, value := userId }]

/-- One entry of the result of `searchSimilarChunks`. -/
structure SearchHit where
  chunk_id : Str
  document_id : Str
  text : Str
  score : Int
deriving DecidableEq

/-- `searchSimilarChunks`: project each returned point onto chunk id,
document id, text and score. -/
def searchSimilarChunks (sim : List Int → List Int → Int) (embed : Str → List Int)
    (store : List Point) (userId queryText : Str) (limit : Nat) : List SearchHit :=
  (searchSimilarChunksPoints sim embed store userId queryText limit).map fun p =>
    { chunk_id := p.payload.chunk_id, document_id := p.payload.document_id,
      text := p.payload.text, score := sim (embed queryText) p.vector }

theorem matchesFilter_user (A : Str) (p : Point) :
    matchesFilter [{ key := "user_id".data, value := A }] p = (p.payload.user_id == A) := by
  simp [matchesFilter, payloadField]

/-- C1: tenant isolation of vector search: every point returned by a
search for tenant A carries payload tenant A (so never another tenant B),
and the search result depends only on the tenant A points of the store, in
particular it is unaffected by the presence or absence of any other
tenant's points. -/
theorem searchSimilarChunks_tenant_isolation
    (sim : List Int → List Int → Int) (embed : Str → List Int)
    (store store2 : List Point) (A B queryText : Str) (limit : Nat) (hAB : A ≠ B) :
    (∀ p ∈ searchSimilarChunksPoints sim embed store A queryText limit,
        p.payload.user_id = A ∧ p.payload.user_id ≠ B)
      ∧ (store.filter (fun p => p.payload.user_id == A)
            = store2.filter (fun p => p.payload.user_id == A)
          → searchSimilarChunks sim embed store A queryText limit
              = searchSimilarChunks sim embed store2 A queryText limit) := by
  constructor
  · intro p hp
    have h1 : p ∈ (store.filter
        (matchesFilter [{ key := "user_id".data, value := A }])).mergeSort
        (fun a b => decide (sim (embed queryText) b.vector ≤ sim (embed queryText) a.vector)) :=
      List.mem_of_mem_take hp
    have h2 : p ∈ store.filter (matchesFilter [{ key := "user_id".data, value := A }]) :=
      List.mem_mergeSort.mp h1
    have h3 := (List.mem_filter.mp h2).2
    rw [matchesFilter_user] at h3
    have h4 : p.payload.user_id = A := by simpa using h3
    exact ⟨h4, fun hB => hAB (h4 ▸ hB)⟩
  · intro hst
    unfold searchSimilarChunks searchSimilarChunksPoints qdrantSearch
    have e1 : store.filter (matchesFilter [{ key := "user_id".data, value := A }])
        = store.filter (fun p => p.payload.user_id == A) :=
      List.filter_congr (fun p _ => matchesFilter_user A p)
    have e2 : store2.filter (matchesFilter [{ key := "user_id".data, value := A }])
        = store2.filter (fun p => p.payload.user_id == A) :=
      List.filter_congr (fun p _ => matchesFilter_user A p)
    rw [e1, e2, hst]

/-- A fixed zero similarity function for concrete instantiations. -/
def simConst : List Int → List Int → Int := fun _ _ => 0

/-- A fixed embedding function for concrete instantiations. -/
def embedConst : Str → List Int := fun _ => [0]

/-- A concrete point owned by tenant alice. -/
def pointAlice : Point :=
  { id := "p1".data, vector := [0],
    payload := { user_id := "alice".data, document_id := "d1".data,
                 chunk_id := "c1".data, text := "hello".data,
                 source_type := "text".data, created_at := "t0".data } }

/-- A concrete point owned by tenant bob. -/
def pointBob : Point :=
  { id := "p2".data, vector := [0],
    payload := { user_id := "bob".data, document_id := "d2".data,
                 chunk_id := "c2".data, text := "world".data,
                 source_type := "text".data, created_at := "t0".data } }

/-- Instantiation of the tenant isolation theorem at a two-tenant store. -/
theorem searchSimilarChunks_tenant_isolation_witness :
    "alice".data ≠ "bob".data
      ∧ ((∀ p ∈ searchSimilarChunksPoints simConst embedConst [pointAlice, pointBob]
              "alice".data "query".data 5,
            p.payload.user_id = "alice".data ∧ p.payload.user_id ≠ "bob".data)
        ∧ ([pointAlice, pointBob].filter (fun p => p.payload.user_id == "alice".data)
              = [pointAlice].filter (fun p => p.payload.user_id == "alice".data)
            → searchSimilarChunks simConst embedConst [pointAlice, pointBob]
                "alice".data "query".data 5
              = searchSimilarChunks simConst embedConst [pointAlice]
                "alice".data "query".data 5)) :=
  ⟨by decide, searchSimilarChunks_tenant_isolation simConst embedConst
    [pointAlice, pointBob] [pointAlice] "alice".data "bob".data "query".data 5 (by decide)⟩


/-- A JSON field value as deliverable by `JSON.parse` for a candidate
event field: absent, null, a string, a finite number (JSON text cannot
denote NaN), a boolean, or some other object or array value. -/
inductive JField where
  | missing
  | null
  | str (s : Str)
  | num (q : ℚ)
  | bool (b : Bool)
  | obj
deriving DecidableEq

/-- JS truthiness of a field value: undefined, null, the empty string,
zero and false are falsy, everything else is truthy. -/
def JField.truthy : JField → Bool
  | .missing => false
  | .null => false
  | .str s => !s.isEmpty
  | .num q => decide (q ≠ 0)
  | .bool b => b
  | .obj => true

/-- The JS test typeof x === "string". -/
def JField.isString : JField → Bool
  | .str _ => true
  | _ => false

/-- The JS test typeof x === "number". -/
def JField.isNumber : JField → Bool
  | .num _ => true
  | _ => false

/-- The string content of a string-typed field; only used under
`isString`. -/
def JField.strValue : JField → Str
  | .str s => s
  | _ => []

/-- The numeric content of a number-typed field; only used under
`isNumber`. -/
def JField.numValue : JField → ℚ
  | .num q => q
  | _ => 0

/-- `x || null`. -/
def JField.orNull (f : JField) : JField :=
  if f.truthy then f else .null

/-- The confidence threshold 0.6 of `sanitizeEvents`, written as a reduced
fraction so that concrete instances evaluate inside the kernel. -/
def confidenceThreshold : ℚ := ⟨3, 5, by norm_num, by norm_num⟩

theorem confidenceThreshold_eq : confidenceThreshold = 3 / 5 := by
  rw [Rat.eq_iff_mul_eq_mul]
  norm_num [confidenceThreshold]

/-- The confidence value 0.59 of the boundary scenario. -/
def conf059 : ℚ := ⟨59, 100, by norm_num, by norm_num⟩

theorem conf059_eq : conf059 = 59 / 100 := by
  rw [Rat.eq_iff_mul_eq_mul]
  norm_num [conf059]

/-- A candidate event as parsed from the model response. -/
structure RawEvent where
  title : JField
  start_time : JField
  end_time : JField
  recurrence : JField
  confidence : JField
deriving DecidableEq

/-- The filter step of `sanitizeEvents` (qdrant.service.ts lines 852-858):
keep an event when its title is truthy and a string, its confidence is a
number, and the confidence is not below the 0.6 threshold. -/
def keepEvent (e : RawEvent) : Bool :=
  if !e.title.truthy || !e.title.isString then false
  else if !e.confidence.isNumber then false
  else if e.confidence.numValue < confidenceThreshold then false
  else true

/-- An event surviving `sanitizeEvents`. -/
structure SanEvent where
  title : Str
  start_time : JField
  end_time : JField
  recurrence : JField
  confidence : ℚ
deriving DecidableEq

/-- The map step of `sanitizeEvents`: trim the title and clamp the
confidence into the unit interval. -/
def sanitizeOne (e : RawEvent) : SanEvent :=
  { title := trimChars e.title.strValue,
    start_time := e.start_time, end_time := e.end_time,
    recurrence := e.recurrence,
    confidence := min 1 (max 0 e.confidence.numValue) }

/-- A parsed JSON top-level value, viewed as a candidate event list or as
some other shape. -/
inductive JsonValue where
  | arr (events : List RawEvent)
  | other
deriving DecidableEq

/-- `sanitizeEvents` (qdrant.service.ts lines 847-866): a non-array input
yields no events; otherwise filter then map. -/
def sanitizeEvents : JsonValue → List SanEvent
  | .other => []
  | .arr events => (events.filter keepEvent).map sanitizeOne

/-- The defensive date parser of part_001 (`parseDate`): null unless the
field is a string that is non-empty after trimming and that the runtime
Date parser accepts; which date strings the runtime accepts is an
abstract oracle. -/
def parseDate (dateOk : Str → Bool) : JField → Option Str
  | .str s =>
    let t := trimChars s
    if t = [] then none
    else if dateOk t then some t else none
  | _ => none

/-- A persisted DetectedEvent row, with the fields written by the
persistence loop of part_001. -/
structure EventRow where
  userId : Str
  documentId : Str
  title : Str
  startTime : Option Str
  endTime : Option Str
  recurrence : JField
  confidence : ℚ
  sourceText : Str
deriving DecidableEq

/-- The persistence loop of `detectEventsForDocument` (part_001 lines
70-105): parse both time fields defensively, skip an event with no valid
start, no valid end and no recurrence, insert a row otherwise, and count
created and skipped events.  Row insertion is modelled as succeeding. -/
def persistLoop (dateOk : Str → Bool) (userId docId sourceText : Str) :
    List SanEvent → List EventRow → Nat × Nat × List EventRow
  | [], rows => (0, 0, rows)
  | e :: rest, rows =>
    let startTime := parseDate dateOk e.start_time
    let endTime := parseDate dateOk e.end_time
    if startTime.isNone && endTime.isNone && !e.recurrence.truthy then
      let r := persistLoop dateOk userId docId sourceText rest rows
      (r.1, r.2.1 + 1, r.2.2)
    else
      let row : EventRow :=
        { userId := userId, documentId := docId, title := e.title,
          startTime := startTime, endTime := endTime,
          recurrence := e.recurrence.orNull,
          confidence := e.confidence, sourceText := sourceText }
      let r := persistLoop dateOk userId docId sourceText rest (rows ++ [row])
      (r.1 + 1, r.2.1, r.2.2)

/-- The outcome of `JSON.parse`: a throw, or a parsed value. -/
inductive ParseResult where
  | fail
  | val (v : JsonValue)

/-- The regex-based candidate extraction of the part_001
`extractEventsWithLLM` (lines 168-188): trim the response; if the fenced
code block regex matches, take its trimmed capture; otherwise prefer the
object-array regex match, then the plain array regex match, else keep the
trimmed response.  The three regex matchers belong to the JS regex engine
and are abstract oracles. -/
def extractJsonCandidate (matchFenced matchObjArr matchArr : Str → Option Str)
    (response : Str) : Str :=
  let jsonString := trimChars response
  match matchFenced jsonString with
  | some captured => trimChars captured
  | none =>
    match matchObjArr jsonString, matchArr jsonString with
    | some m, _ => m
    | none, some m => m
    | none, none => jsonString

/-- `extractEventsWithLLM`, qdrant.service.ts variant (lines 806-844): no
preprocessing and no catch around the model call; a parse failure yields
no events, a model failure propagates to the caller. -/
def extractEventsWithLLMv1 (jsonParse : Str → ParseResult)
    (modelResult : Except Str Str) : Except Str JsonValue :=
  match modelResult with
  | .error e => .error e
  | .ok response =>
    match jsonParse response with
    | .fail => .ok (.arr [])
    | .val v => .ok v

/-- `extractEventsWithLLM`, part_001 variant (lines 160-217): the model
call and all parsing run inside a try block whose catch returns no
events; the candidate string is preprocessed, and a parse failure or a
non-array parse yields no events. -/
def extractEventsWithLLMv2 (jsonParse : Str → ParseResult)
    (matchFenced matchObjArr matchArr : Str → Option Str)
    (modelResult : Except Str Str) : Except Str (List RawEvent) :=
  match modelResult with
  | .error _ => .ok []
  | .ok response =>
    match jsonParse (extractJsonCandidate matchFenced matchObjArr matchArr response) with
    | .fail => .ok []
    | .val (.arr evs) => .ok evs
    | .val .other => .ok []

/-- The oracle bundle for event detection: the generative model response
for a document text (the extraction prompt is a fixed template around the
text, so keying the oracle by the text loses nothing), the JSON parser,
the three regex matchers and the date parser. -/
structure LlmEnv where
  model : Str → Except Str Str
  jsonParse : Str → ParseResult
  matchFenced : Str → Option Str
  matchObjArr : Str → Option Str
  matchArr : Str → Option Str
  dateOk : Str → Bool

/-- A document row together with its chunk contents in index order. -/
structure DocumentRec where
  id : Str
  userId : Str
  chunks : List Str
deriving DecidableEq

/-- The DetectedEvent table together with a count of generative model
calls, which only serves to observe that the idempotence guard skips the
model. -/
structure EventDb where
  events : List EventRow
  llmCalls : Nat
deriving DecidableEq

/-- The value returned by `detectEventsForDocument`. -/
inductive DetectResult where
  | skipped
  | detected (created sanitized raw skippedCount : Nat)
deriving DecidableEq

/-- `detectEventsForDocument` (part_001 lines 12-120): throw when the
document is absent, skip when a DetectedEvent already exists for the
document or when the combined chunk text is shorter than 50 characters,
otherwise call the extractor, sanitize, and run the persistence loop with
the first 1000 characters of the combined text as source excerpt. -/
def detectEventsForDocument (env : LlmEnv) (doc? : Option DocumentRec) (db : EventDb) :
    Except Str DetectResult × EventDb :=
  match doc? with
  | none => (.error "Document not found".data, db)
  | some doc =>
    if db.events.any (fun e => e.documentId == doc.id) then (.ok .skipped, db)
    else
      let combinedText := joinWith '\n' doc.chunks
      if combinedText.length < 50 then (.ok .skipped, db)
      else
        match extractEventsWithLLMv2 env.jsonParse env.matchFenced env.matchObjArr
            env.matchArr (env.model combinedText) with
        | .error e => (.error e, { db with llmCalls := db.llmCalls + 1 })
        | .ok raw =>
          let valid := sanitizeEvents (.arr raw)
          let r := persistLoop env.dateOk doc.userId doc.id
            (combinedText.take 1000) valid db.events
          (.ok (.detected r.1 valid.length raw.length r.2.1),
            { events := r.2.2, llmCalls := db.llmCalls + 1 })


/-- The no-time test of the persistence loop: the event has a parsed
start, a parsed end, or a truthy recurrence. -/
def hasTimeOrRecurrence (dateOk : Str → Bool) (e : SanEvent) : Bool :=
  !((parseDate dateOk e.start_time).isNone && (parseDate dateOk e.end_time).isNone
    && !e.recurrence.truthy)

/-- The row the persistence loop writes for an event it keeps. -/
def mkRow (dateOk : Str → Bool) (userId docId sourceText : Str) (e : SanEvent) : EventRow :=
  { userId := userId, documentId := docId, title := e.title,
    startTime := parseDate dateOk e.start_time,
    endTime := parseDate dateOk e.end_time,
    recurrence := e.recurrence.orNull,
    confidence := e.confidence, sourceText := sourceText }

/-- The rows after the persistence loop are the previous rows followed by
one row for each event passing the no-time test, in order. -/
theorem persistLoop_rows (dateOk : Str → Bool) (userId docId sourceText : Str) :
    ∀ (es : List SanEvent) (rows : List EventRow),
      (persistLoop dateOk userId docId sourceText es rows).2.2
        = rows ++ (es.filter (hasTimeOrRecurrence dateOk)).map
            (mkRow dateOk userId docId sourceText) := by
  intro es
  induction es with
  | nil => intro rows; simp [persistLoop]
  | cons e rest ih =>
    intro rows
    by_cases h : ((parseDate dateOk e.start_time).isNone
        && (parseDate dateOk e.end_time).isNone && !e.recurrence.truthy) = true
    · have hfilt : hasTimeOrRecurrence dateOk e = false := by
        simp [hasTimeOrRecurrence, h]
      simp [persistLoop, h, ih, hfilt]
    · have hb : ((parseDate dateOk e.start_time).isNone
          && (parseDate dateOk e.end_time).isNone && !e.recurrence.truthy) = false :=
        Bool.not_eq_true _ ▸ eq_false_of_ne_true h
      have hfilt : hasTimeOrRecurrence dateOk e = true := by
        simp [hasTimeOrRecurrence, hb]
      simp [persistLoop, hb, ih, hfilt, mkRow]

/-- The created counter of the persistence loop counts the kept events. -/
theorem persistLoop_created (dateOk : Str → Bool) (userId docId sourceText : Str) :
    ∀ (es : List SanEvent) (rows : List EventRow),
      (persistLoop dateOk userId docId sourceText es rows).1
        = (es.filter (hasTimeOrRecurrence dateOk)).length := by
  intro es
  induction es with
  | nil => intro rows; simp [persistLoop]
  | cons e rest ih =>
    intro rows
    by_cases h : ((parseDate dateOk e.start_time).isNone
        && (parseDate dateOk e.end_time).isNone && !e.recurrence.truthy) = true
    · have hfilt : hasTimeOrRecurrence dateOk e = false := by
        simp [hasTimeOrRecurrence, h]
      simp [persistLoop, h, ih, hfilt]
    · have hb : ((parseDate dateOk e.start_time).isNone
          && (parseDate dateOk e.end_time).isNone && !e.recurrence.truthy) = false :=
        Bool.not_eq_true _ ▸ eq_false_of_ne_true h
      have hfilt : hasTimeOrRecurrence dateOk e = true := by
        simp [hasTimeOrRecurrence, hb]
      simp [persistLoop, hb, ih, hfilt]

/-- A candidate event reaches the database exactly when it passes the
sanitize filter and, after sanitization, the no-time test of the loop. -/
def eventAccepted (dateOk : Str → Bool) (e : RawEvent) : Bool :=
  keepEvent e && hasTimeOrRecurrence dateOk (sanitizeOne e)

/-- The acceptance condition as the amended claim words it: the title is a
string and non-empty before trimming, the confidence is numeric and at
least the 0.6 threshold, and after defensive date parsing the event has a
start time, an end time, or a truthy recurrence. -/
def specAccepts (dateOk : Str → Bool) (e : RawEvent) : Prop :=
  (∃ s, e.title = .str s ∧ s ≠ []) ∧
  (∃ q, e.confidence = .num q ∧ confidenceThreshold ≤ q) ∧
  (parseDate dateOk e.start_time ≠ none ∨ parseDate dateOk e.end_time ≠ none
    ∨ e.recurrence.truthy = true)

theorem conf059_lt_threshold : conf059 < confidenceThreshold := by decide

/-- C5 (amended): sanitization boundary: the rows written by a run of the
sanitize-and-persist stage are exactly one row per accepted candidate;
acceptance means a non-empty string title (tested before trimming, so a
whitespace-only title is accepted), numeric confidence at least 0.6, and a
parsed start, parsed end, or truthy recurrence; every written confidence
is clamped into the unit interval; confidence exactly 0.6 with a
recurrence is accepted, 0.59 is rejected, and a title-only event is
rejected for every confidence. -/
theorem sanitizeEvents_boundary (dateOk : Str → Bool) (userId docId sourceText : Str)
    (evs : List RawEvent) (rows : List EventRow) :
    ((persistLoop dateOk userId docId sourceText (sanitizeEvents (.arr evs)) rows).2.2
        = rows ++ (evs.filter (eventAccepted dateOk)).map
            (fun e => mkRow dateOk userId docId sourceText (sanitizeOne e)))
      ∧ (∀ e, eventAccepted dateOk e = true ↔ specAccepts dateOk e)
      ∧ (∀ r ∈ (persistLoop dateOk userId docId sourceText
            (sanitizeEvents (.arr evs)) rows).2.2,
          r ∈ rows ∨ (0 ≤ r.confidence ∧ r.confidence ≤ 1))
      ∧ eventAccepted dateOk
          { title := .str "Standup".data, start_time := .null, end_time := .null,
            recurrence := .str "daily".data, confidence := .num confidenceThreshold } = true
      ∧ eventAccepted dateOk
          { title := .str "Standup".data, start_time := .null, end_time := .null,
            recurrence := .str "daily".data, confidence := .num conf059 } = false
      ∧ (∀ q, eventAccepted dateOk
          { title := .str "Party".data, start_time := .null, end_time := .null,
            recurrence := .null, confidence := .num q } = false) := by
  have hrows : (persistLoop dateOk userId docId sourceText
        (sanitizeEvents (.arr evs)) rows).2.2
      = rows ++ (evs.filter (eventAccepted dateOk)).map
          (fun e => mkRow dateOk userId docId sourceText (sanitizeOne e)) := by
    rw [persistLoop_rows]
    congr 1
    show ((((evs.filter keepEvent).map sanitizeOne).filter
        (hasTimeOrRecurrence dateOk)).map (mkRow dateOk userId docId sourceText)) = _
    rw [List.filter_map, List.map_map]
    congr 1
    rw [List.filter_filter]
    exact List.filter_congr fun e _ => by
      simp [eventAccepted, Function.comp, Bool.and_comm]
  refine ⟨hrows, ?_, ?_, ?_, ?_, ?_⟩
  · intro e
    obtain ⟨t, st, et, rec, conf⟩ := e
    cases t <;> cases conf <;>
      simp [eventAccepted, keepEvent, sanitizeOne, hasTimeOrRecurrence, specAccepts,
        JField.truthy, JField.isString, JField.isNumber, JField.numValue,
        not_lt, List.isEmpty_iff, Option.isNone_iff_eq_none, and_assoc,
        Bool.not_and, Bool.or_comm, or_assoc, parseDate,
        Option.isSome_iff_ne_none] <;>
      tauto
  · intro r hr
    rw [hrows] at hr
    rcases List.mem_append.mp hr with h1 | h1
    · exact Or.inl h1
    · right
      obtain ⟨e, _, rfl⟩ := List.mem_map.mp h1
      constructor
      · exact le_min (by norm_num) (le_max_left 0 _)
      · exact min_le_left 1 _
  · simp [eventAccepted, keepEvent, sanitizeOne, hasTimeOrRecurrence, parseDate,
      JField.truthy, JField.isString, JField.isNumber, JField.numValue, lt_irrefl]
  · simp [eventAccepted, keepEvent, JField.truthy, JField.isString, JField.isNumber,
      JField.numValue, conf059_lt_threshold]
  · intro q
    simp [eventAccepted, hasTimeOrRecurrence, sanitizeOne, parseDate, JField.truthy]

/-- The date oracle that rejects every string. -/
def dateOkNone : Str → Bool := fun _ => false

/-- A candidate event whose title is whitespace only. -/
def wsTitleEvent : RawEvent :=
  { title := .str "  ".data, start_time := .null, end_time := .null,
    recurrence := .str "weekly".data, confidence := .num 1 }

/-- C5 counterexample: a candidate whose title is whitespace only, hence
empty after trimming, with confidence 1 and a recurrence string, passes
the source filter (which tests title emptiness before trimming) and is
persisted with an empty trimmed title. -/
theorem sanitizeEvents_ws_title_counterexample :
    eventAccepted dateOkNone wsTitleEvent = true
      ∧ trimChars "  ".data = []
      ∧ ((persistLoop dateOkNone "u1".data "d1".data "src".data
            (sanitizeEvents (.arr [wsTitleEvent])) []).2.2).map EventRow.title = [[]] := by
  refine ⟨by decide, by decide, by decide⟩


/-- The part_001 extractor returns a value for every model outcome. -/
theorem extractEventsWithLLMv2_ok (jsonParse : Str → ParseResult)
    (mf mo ma : Str → Option Str) (modelResult : Except Str Str) :
    ∃ evs, extractEventsWithLLMv2 jsonParse mf mo ma modelResult = .ok evs := by
  cases modelResult with
  | error e => exact ⟨[], rfl⟩
  | ok response =>
    cases h : jsonParse (extractJsonCandidate mf mo ma response) with
    | fail => exact ⟨[], by simp [extractEventsWithLLMv2, h]⟩
    | val v =>
      cases v with
      | arr evs => exact ⟨evs, by simp [extractEventsWithLLMv2, h]⟩
      | other => exact ⟨[], by simp [extractEventsWithLLMv2, h]⟩

theorem detectEvents_skip_existing (env : LlmEnv) (doc : DocumentRec) (db : EventDb)
    (hany : db.events.any (fun e => e.documentId == doc.id) = true) :
    detectEventsForDocument env (some doc) db = (.ok .skipped, db) := by
  simp [detectEventsForDocument, hany]

theorem detectEvents_skip_short (env : LlmEnv) (doc : DocumentRec) (db : EventDb)
    (hany : db.events.any (fun e => e.documentId == doc.id) = false)
    (hlen : (joinWith '\n' doc.chunks).length < 50) :
    detectEventsForDocument env (some doc) db = (.ok .skipped, db) := by
  simp [detectEventsForDocument, hany, hlen]

/-- One non-skipped detection run: the model is called once, and one row
is appended per accepted event, in order. -/
theorem detectEvents_full_run (env : LlmEnv) (doc : DocumentRec) (db : EventDb)
    (hany : db.events.any (fun e => e.documentId == doc.id) = false)
    (hlen : ¬ (joinWith '\n' doc.chunks).length < 50)
    (raw : List RawEvent)
    (hres : extractEventsWithLLMv2 env.jsonParse env.matchFenced env.matchObjArr
        env.matchArr (env.model (joinWith '\n' doc.chunks)) = .ok raw) :
    detectEventsForDocument env (some doc) db
      = (.ok (.detected
            ((sanitizeEvents (.arr raw)).filter (hasTimeOrRecurrence env.dateOk)).length
            (sanitizeEvents (.arr raw)).length raw.length
            (persistLoop env.dateOk doc.userId doc.id
              ((joinWith '\n' doc.chunks).take 1000) (sanitizeEvents (.arr raw))
              db.events).2.1),
          { events := db.events ++ ((sanitizeEvents (.arr raw)).filter
                (hasTimeOrRecurrence env.dateOk)).map
                (mkRow env.dateOk doc.userId doc.id ((joinWith '\n' doc.chunks).take 1000)),
            llmCalls := db.llmCalls + 1 }) := by
  simp [detectEventsForDocument, hany, hlen, hres, persistLoop_rows, persistLoop_created]

/-- Every row appended by a full run belongs to the processed document. -/
theorem mkRow_documentId (dateOk : Str → Bool) (userId docId sourceText : Str)
    (e : SanEvent) : (mkRow dateOk userId docId sourceText e).documentId = docId := rfl

/-- C6 (amended): the idempotence guard: if any DetectedEvent already
exists for the document, the call returns skipped and changes nothing (in
particular the model is not called); if a call reports at least one
created event, the next call returns skipped and changes nothing; and for
a fixed oracle environment a second call never changes the persisted
event set, whatever the first call returned. -/
theorem detectEvents_idempotent (env : LlmEnv) (doc? : Option DocumentRec) (db : EventDb) :
    (∀ doc, doc? = some doc →
        (∃ e ∈ db.events, e.documentId = doc.id) →
        detectEventsForDocument env doc? db = (.ok .skipped, db))
      ∧ (∀ doc c s r k, doc? = some doc →
          (detectEventsForDocument env doc? db).1 = .ok (.detected c s r k) → 1 ≤ c →
          detectEventsForDocument env doc? (detectEventsForDocument env doc? db).2
            = (.ok .skipped, (detectEventsForDocument env doc? db).2))
      ∧ (detectEventsForDocument env doc? (detectEventsForDocument env doc? db).2).2.events
          = (detectEventsForDocument env doc? db).2.events := by
  refine ⟨?_, ?_, ?_⟩
  · intro doc hdoc hex
    subst hdoc
    obtain ⟨e, he, hid⟩ := hex
    exact detectEvents_skip_existing env doc db
      (List.any_eq_true.mpr ⟨e, he, by simp [hid]⟩)
  · intro doc c s r k hdoc h1 hc
    subst hdoc
    by_cases hany : db.events.any (fun e => e.documentId == doc.id) = true
    · rw [detectEvents_skip_existing env doc db hany] at h1
      simp at h1
    · have hany2 : db.events.any (fun e => e.documentId == doc.id) = false :=
        eq_false_of_ne_true hany
      by_cases hlen : (joinWith '\n' doc.chunks).length < 50
      · rw [detectEvents_skip_short env doc db hany2 hlen] at h1
        simp at h1
      · obtain ⟨raw, hres⟩ := extractEventsWithLLMv2_ok env.jsonParse env.matchFenced
          env.matchObjArr env.matchArr (env.model (joinWith '\n' doc.chunks))
        rw [detectEvents_full_run env doc db hany2 hlen raw hres] at h1 ⊢
        simp only [Except.ok.injEq, DetectResult.detected.injEq] at h1
        have hclen : ((sanitizeEvents (.arr raw)).filter
            (hasTimeOrRecurrence env.dateOk)).length = c := h1.1
        cases hnew : (sanitizeEvents (.arr raw)).filter (hasTimeOrRecurrence env.dateOk) with
        | nil => rw [hnew] at hclen; simp at hclen; omega
        | cons e0 es0 =>
          apply detectEvents_skip_existing
          apply List.any_eq_true.mpr
          refine ⟨mkRow env.dateOk doc.userId doc.id
            ((joinWith '\n' doc.chunks).take 1000) e0, ?_, ?_⟩
          · simp [hnew]
          · simp [mkRow_documentId]
  · cases doc? with
    | none => simp [detectEventsForDocument]
    | some doc =>
      by_cases hany : db.events.any (fun e => e.documentId == doc.id) = true
      · rw [detectEvents_skip_existing env doc db hany,
          detectEvents_skip_existing env doc db hany]
      · have hany2 : db.events.any (fun e => e.documentId == doc.id) = false :=
          eq_false_of_ne_true hany
        by_cases hlen : (joinWith '\n' doc.chunks).length < 50
        · rw [detectEvents_skip_short env doc db hany2 hlen,
            detectEvents_skip_short env doc db hany2 hlen]
        · obtain ⟨raw, hres⟩ := extractEventsWithLLMv2_ok env.jsonParse env.matchFenced
            env.matchObjArr env.matchArr (env.model (joinWith '\n' doc.chunks))
          rw [detectEvents_full_run env doc db hany2 hlen raw hres]
          cases hnew : (sanitizeEvents (.arr raw)).filter (hasTimeOrRecurrence env.dateOk) with
          | nil =>
            dsimp only
            rw [detectEvents_full_run env doc
              { events := db.events ++ (List.map (mkRow env.dateOk doc.userId doc.id
                  ((joinWith '\n' doc.chunks).take 1000)) []),
                llmCalls := db.llmCalls + 1 }
              (by simpa using hany2) hlen raw hres]
            simp [hnew]
          | cons e0 es0 =>
            rw [detectEvents_skip_existing env doc _ ?_]
            apply List.any_eq_true.mpr
            refine ⟨mkRow env.dateOk doc.userId doc.id
              ((joinWith '\n' doc.chunks).take 1000) e0, ?_, ?_⟩
            · simp [hnew]
            · simp [mkRow_documentId]

/-- The oracle environment of the concrete detection scenarios: the model
always answers with an empty JSON array, the parser accepts exactly that
answer, no regex matches, no date string parses. -/
def envZero : LlmEnv :=
  { model := fun _ => .ok "[]".data,
    jsonParse := fun s => if s = "[]".data then .val (.arr []) else .fail,
    matchFenced := fun _ => none,
    matchObjArr := fun _ => none,
    matchArr := fun _ => none,
    dateOk := fun _ => false }

/-- A document with one sixty-character chunk. -/
def docSixty : DocumentRec :=
  { id := "d1".data, userId := "u1".data, chunks := [List.replicate 60 'a'] }

/-- An empty DetectedEvent table. -/
def dbEmpty : EventDb := { events := [], llmCalls := 0 }

/-- A DetectedEvent row already present for document d1. -/
def eventRowStandup : EventRow :=
  { userId := "u1".data, documentId := "d1".data, title := "Standup".data,
    startTime := none, endTime := none, recurrence := .str "daily".data,
    confidence := 1, sourceText := "s".data }

/-- A DetectedEvent table already holding one event for document d1. -/
def dbOne : EventDb := { events := [eventRowStandup], llmCalls := 0 }

/-- C6 counterexample: when the first call persists nothing (here the
model reports no events), the second call runs the full extraction again
and reports a detected count of zero rather than skipped. -/
theorem detectEvents_twice_counterexample :
    (detectEventsForDocument envZero (some docSixty)
        (detectEventsForDocument envZero (some docSixty) dbEmpty).2).1
      = .ok (.detected 0 0 0 0)
      ∧ (Except.ok (DetectResult.detected 0 0 0 0) : Except Str DetectResult)
          ≠ .ok .skipped := by
  refine ⟨rfl, by simp⟩

/-- Instantiation of the idempotence guard at a table that already holds
an event for the document. -/
theorem detectEvents_idempotent_witness :
    detectEventsForDocument envZero (some docSixty) dbOne = (.ok .skipped, dbOne) :=
  (detectEvents_idempotent envZero (some docSixty) dbOne).1 docSixty rfl
    ⟨eventRowStandup, by decide, by decide⟩

/-- Helper view: whether an Except value is a success. -/
def exceptIsOk : Except Str α → Bool
  | .ok _ => true
  | .error _ => false

/-- The JSON parser oracle that always throws. -/
def parseAlwaysFail : Str → ParseResult := fun _ => .fail

/-- C7 counterexample: the qdrant.service.ts variant of the extractor has
no catch around the model call, so a provider error reaches its caller
unchanged instead of degrading to zero events. -/
theorem extractEvents_provider_error_counterexample :
    extractEventsWithLLMv1 parseAlwaysFail (.error "503 Service Unavailable".data)
        = .error "503 Service Unavailable".data
      ∧ exceptIsOk (extractEventsWithLLMv1 parseAlwaysFail
          (.error "503 Service Unavailable".data)) = false := by
  refine ⟨rfl, rfl⟩

/-- C7 (amended): the part_001 extractor never raises for any model
behaviour (provider error, unparseable output, non-array JSON or
prose-wrapped JSON all yield a plain event list); the qdrant.service.ts
variant never raises once the model call succeeded (every parse failure
yields zero events), but it propagates a model failure unchanged. -/
theorem extractEvents_error_containment
    (jsonParse : Str → ParseResult) (mf mo ma : Str → Option Str)
    (modelResult : Except Str Str) :
    (∃ evs, extractEventsWithLLMv2 jsonParse mf mo ma modelResult = .ok evs)
      ∧ (∀ response, modelResult = .ok response →
          ∃ v, extractEventsWithLLMv1 jsonParse modelResult = .ok v)
      ∧ (∀ e, modelResult = .error e →
          extractEventsWithLLMv1 jsonParse modelResult = .error e) := by
  refine ⟨extractEventsWithLLMv2_ok jsonParse mf mo ma modelResult, ?_, ?_⟩
  · intro response hr
    subst hr
    cases h : jsonParse response with
    | fail => exact ⟨.arr [], by simp [extractEventsWithLLMv1, h]⟩
    | val v => exact ⟨v, by simp [extractEventsWithLLMv1, h]⟩
  · intro e he
    subst he
    rfl

/-- The regex matcher oracle that never matches. -/
def matchNone : Str → Option Str := fun _ => none

/-- Instantiation of the containment theorem at a successful model call. -/
theorem extractEvents_error_containment_witness :
    (∃ evs, extractEventsWithLLMv2 parseAlwaysFail matchNone matchNone matchNone
        (.ok "not json".data) = .ok evs)
      ∧ (∃ v, extractEventsWithLLMv1 parseAlwaysFail (.ok "not json".data) = .ok v) :=
  ⟨(extractEvents_error_containment parseAlwaysFail matchNone matchNone matchNone
      (.ok "not json".data)).1,
    (extractEvents_error_containment parseAlwaysFail matchNone matchNone matchNone
      (.ok "not json".data)).2.1 "not json".data rfl⟩


/-- `storeChunksInQdrant` (qdrant.service.ts lines 5-39): no-op on an
empty chunk list; otherwise embed each chunk text and upsert one point
per chunk under a fresh id, tagging every payload with the constant
source_type "text".  Chunks are (chunk id, text) pairs; fresh point ids
and the creation timestamp come from oracles. -/
def storeChunksInQdrant (embed : Str → List Int) (idGen : Nat → Str) (now : Str)
    (userId documentId : Str) (chunks : List (Str × Str)) (store : List Point) :
    List Point :=
  if chunks = [] then store
  else store ++ chunks.enum.map (fun ic =>
    { id := idGen ic.1, vector := embed ic.2.2,
      payload := { user_id := userId, document_id := documentId,
                   chunk_id := ic.2.1, text := ic.2.2,
                   source_type := "text".data, created_at := now } })

/-- The oracle bundle of one PDF pipeline run: the outcome of each
external call.  Error values carry the JS error message.  A failure of
`embedText` inside `storeChunksInQdrant` surfaces through the upsert
outcome, since both belong to the vector-write step. -/
structure PipelineEnv where
  pdfParse : Except Str Str
  contentUpdate : Except Str Unit
  chunkCreate : Except Str Unit
  upsert : Except Str Unit
  blobDeleteOk : Bool
  failUpdateOk : Bool
  embed : Str → List Int
  chunkIdGen : Nat → Str
  pointIdGen : Nat → Str
  now : Str

/-- The state a PDF pipeline run touches: the document content row, the
created chunk rows, the vector store, and the blob deletion counters
(attempts made and successes). -/
structure PipelineSt where
  docContent : Str
  chunkRows : List (Str × Str)
  store : List Point
  blobDeleteAttempts : Nat
  blobDeletes : Nat
deriving DecidableEq

/-- One `deleteFromCloudinary` call with its inline catch: the attempt is
always counted, a success increments the deletion count, and a failure is
only logged. -/
def attemptBlobDelete (env : PipelineEnv) (st : PipelineSt) : PipelineSt :=
  { st with blobDeleteAttempts := st.blobDeleteAttempts + 1,
            blobDeletes := st.blobDeletes + (if env.blobDeleteOk then 1 else 0) }

/-- The catch handler of `processPDFInBackground` (qdrant.service.ts
lines 244-269): best-effort blob deletion, then a best-effort overwrite
of the document content with the failure marker and the error message,
then rethrow of the error. -/
def pdfCatchHandler (env : PipelineEnv) (errMsg : Str) (st : PipelineSt) :
    Except Str Unit × PipelineSt :=
  let st1 := attemptBlobDelete env st
  let st2 :=
    if env.failUpdateOk then
      { st1 with docContent := "Processing failed: ".data ++ errMsg }
    else st1
  (.error errMsg, st2)

/-- `processPDFInBackground` (qdrant.service.ts lines 153-270): extract
the text, fail on empty extraction, persist the content onto the
document, chunk with size 300, fail on zero chunks, persist chunk rows,
upsert the vectors, then best-effort blob deletion; event detection runs
after that with an inline catch and touches only DetectedEvent rows, so
it does not appear in this state.  Any failure up to the upsert runs the
catch handler. -/
def processPDFInBackground (env : PipelineEnv) (documentId userId : Str)
    (st : PipelineSt) : Except Str Unit × PipelineSt :=
  match env.pdfParse with
  | .error e => pdfCatchHandler env e st
  | .ok extractedText =>
    if trimChars extractedText = [] then
      pdfCatchHandler env "No text could be extracted from the PDF".data st
    else
      match env.contentUpdate with
      | .error e => pdfCatchHandler env e st
      | .ok _ =>
        let st1 := { st with docContent := extractedText }
        if chunkText extractedText 300 = [] then
          pdfCatchHandler env "No chunks could be created from the extracted text".data st1
        else
          match env.chunkCreate with
          | .error e => pdfCatchHandler env e st1
          | .ok _ =>
            let chunkRows := (chunkText extractedText 300).enum.map
              (fun ic => (env.chunkIdGen ic.1, ic.2))
            let st2 := { st1 with chunkRows := st1.chunkRows ++ chunkRows }
            match env.upsert with
            | .error e => pdfCatchHandler env e st2
            | .ok _ =>
              let st3 := { st2 with
                store := storeChunksInQdrant env.embed env.pointIdGen
                  env.now userId documentId chunkRows st2.store }
              (.ok (), attemptBlobDelete env st3)

/-- `processPDFAsync` (qdrant.service.ts lines 272-284): run the pipeline
detached behind setImmediate; the catch swallows every error, so nothing
ever propagates to the upload request handler, which has already
returned. -/
def processPDFAsync (env : PipelineEnv) (documentId userId : Str)
    (st : PipelineSt) : Except Str Unit × PipelineSt :=
  (.ok (), (processPDFInBackground env documentId userId st).2)

/-- With cooperating cleanup oracles the catch handler deletes the blob
once and writes the failure marker. -/
theorem pdfCatchHandler_spec (env : PipelineEnv) (errMsg : Str) (st : PipelineSt)
    (hdel : env.blobDeleteOk = true) (hupd : env.failUpdateOk = true) :
    pdfCatchHandler env errMsg st
      = (.error errMsg,
          { docContent := "Processing failed: ".data ++ errMsg,
            chunkRows := st.chunkRows, store := st.store,
            blobDeleteAttempts := st.blobDeleteAttempts + 1,
            blobDeletes := st.blobDeletes + 1 }) := by
  simp [pdfCatchHandler, attemptBlobDelete, hdel, hupd]

/-- The catch handler never touches the vector store. -/
theorem pdfCatchHandler_store (env : PipelineEnv) (errMsg : Str) (st : PipelineSt) :
    (pdfCatchHandler env errMsg st).2.store = st.store := by
  unfold pdfCatchHandler attemptBlobDelete
  by_cases h : env.failUpdateOk <;> simp [h]

/-- A failing run is exactly the catch handler applied to an intermediate
state with untouched deletion counters and vector store. -/
theorem processPDF_error_run (env : PipelineEnv) (documentId userId : Str)
    (st : PipelineSt) (msg : Str)
    (hfail : (processPDFInBackground env documentId userId st).1 = .error msg) :
    ∃ st', st'.blobDeleteAttempts = st.blobDeleteAttempts
      ∧ st'.blobDeletes = st.blobDeletes
      ∧ st'.store = st.store
      ∧ processPDFInBackground env documentId userId st = pdfCatchHandler env msg st' := by
  cases hp : env.pdfParse with
  | error e =>
    simp only [processPDFInBackground, hp] at hfail ⊢
    have he : e = msg := by simpa [pdfCatchHandler] using hfail
    subst he
    exact ⟨st, rfl, rfl, rfl, rfl⟩
  | ok extractedText =>
    by_cases h1 : trimChars extractedText = []
    · simp only [processPDFInBackground, hp, if_pos h1] at hfail ⊢
      have he : "No text could be extracted from the PDF".data = msg := by
        simpa [pdfCatchHandler] using hfail
      subst he
      exact ⟨st, rfl, rfl, rfl, rfl⟩
    · cases hc : env.contentUpdate with
      | error e =>
        simp only [processPDFInBackground, hp, if_neg h1, hc] at hfail ⊢
        have he : e = msg := by simpa [pdfCatchHandler] using hfail
        subst he
        exact ⟨st, rfl, rfl, rfl, rfl⟩
      | ok u =>
        by_cases h2 : chunkText extractedText 300 = []
        · simp only [processPDFInBackground, hp, if_neg h1, hc, if_pos h2] at hfail ⊢
          have he : "No chunks could be created from the extracted text".data = msg := by
            simpa [pdfCatchHandler] using hfail
          subst he
          exact ⟨{ st with docContent := extractedText }, rfl, rfl, rfl, rfl⟩
        · cases hk : env.chunkCreate with
          | error e =>
            simp only [processPDFInBackground, hp, if_neg h1, hc, if_neg h2, hk] at hfail ⊢
            have he : e = msg := by simpa [pdfCatchHandler] using hfail
            subst he
            exact ⟨{ st with docContent := extractedText }, rfl, rfl, rfl, rfl⟩
          | ok u2 =>
            cases hu : env.upsert with
            | error e =>
              simp only [processPDFInBackground, hp, if_neg h1, hc, if_neg h2, hk, hu]
                at hfail ⊢
              have he : e = msg := by simpa [pdfCatchHandler] using hfail
              subst he
              refine ⟨{ st with
                  docContent := extractedText,
                  chunkRows := st.chunkRows ++ (chunkText extractedText 300).enum.map
                    (fun ic => (env.chunkIdGen ic.1, ic.2)) },
                rfl, rfl, rfl, rfl⟩
            | ok u3 =>
              simp only [processPDFInBackground, hp, if_neg h1, hc, if_neg h2, hk, hu]
                at hfail
              simp [attemptBlobDelete] at hfail

/-- The failure content always carries the failure marker, so the derived
status of the document becomes failed. -/
theorem computeStatus_failure_content (msg : Str) :
    computeStatus "pdf".data ("Processing failed: ".data ++ msg) = "failed".data := by
  unfold computeStatus
  rw [if_pos rfl]
  have h1 : trimChars ("Processing failed: ".data ++ msg) ≠ [] := by
    rw [Ne, trimChars_eq_nil_iff]
    intro h
    have hP := h 'P' (List.mem_append.mpr (Or.inl (by decide)))
    exact absurd hP (by decide)
  rw [if_neg h1]
  have h2 : failureMarker.isPrefixOf ("Processing failed: ".data ++ msg) = true := by
    have hsplit : "Processing failed: ".data = failureMarker ++ [' '] := by decide
    rw [hsplit, List.append_assoc]
    rw [List.isPrefixOf_iff_prefix]
    exact List.prefix_append failureMarker ([' '] ++ msg)
  rw [if_pos h2]

/-- C4: PDF pipeline failure policy: when any step up to the vector
upsert fails, the run enters the catch handler: starting from a fresh
state, with the blob store and the failure update cooperating, the
temporary blob is deleted exactly once (one attempt, one success — no
deletion attempt can precede the catch in this variant), the document
content is overwritten with the failure marker followed by the error
message so that the derived status becomes failed, and the async wrapper
swallows the rethrown error, so nothing reaches the upload caller. -/
theorem processPDF_failure_policy (env : PipelineEnv) (documentId userId : Str)
    (st : PipelineSt) (msg : Str)
    (hfresh : st.blobDeleteAttempts = 0 ∧ st.blobDeletes = 0)
    (hdel : env.blobDeleteOk = true) (hupd : env.failUpdateOk = true)
    (hfail : (processPDFInBackground env documentId userId st).1 = .error msg) :
    (processPDFInBackground env documentId userId st).2.blobDeleteAttempts = 1
      ∧ (processPDFInBackground env documentId userId st).2.blobDeletes = 1
      ∧ (processPDFInBackground env documentId userId st).2.docContent
          = "Processing failed: ".data ++ msg
      ∧ computeStatus "pdf".data (processPDFInBackground env documentId userId st).2.docContent
          = "failed".data
      ∧ (processPDFAsync env documentId userId st).1 = .ok () := by
  obtain ⟨st', ha, hb, _, heq⟩ := processPDF_error_run env documentId userId st msg hfail
  rw [heq, pdfCatchHandler_spec env msg st' hdel hupd]
  refine ⟨by simp [ha, hfresh.1], by simp [hb, hfresh.2], rfl,
    computeStatus_failure_content msg, rfl⟩

/-- A pipeline oracle bundle whose extraction step fails. -/
def envPdfFail : PipelineEnv :=
  { pdfParse := .error "boom".data, contentUpdate := .ok (), chunkCreate := .ok (),
    upsert := .ok (), blobDeleteOk := true, failUpdateOk := true,
    embed := embedConst, chunkIdGen := fun _ => "c".data,
    pointIdGen := fun _ => "p".data, now := "t".data }

/-- A fresh pipeline state. -/
def stZero : PipelineSt :=
  { docContent := [], chunkRows := [], store := [],
    blobDeleteAttempts := 0, blobDeletes := 0 }

/-- Instantiation of the failure policy at a failing extraction. -/
theorem processPDF_failure_policy_witness :
    (processPDFInBackground envPdfFail "d1".data "u1".data stZero).2.blobDeleteAttempts = 1
      ∧ (processPDFInBackground envPdfFail "d1".data "u1".data stZero).2.blobDeletes = 1
      ∧ (processPDFInBackground envPdfFail "d1".data "u1".data stZero).2.docContent
          = "Processing failed: ".data ++ "boom".data
      ∧ computeStatus "pdf".data
          (processPDFInBackground envPdfFail "d1".data "u1".data stZero).2.docContent
          = "failed".data
      ∧ (processPDFAsync envPdfFail "d1".data "u1".data stZero).1 = .ok () :=
  processPDF_failure_policy envPdfFail "d1".data "u1".data stZero "boom".data
    ⟨rfl, rfl⟩ rfl rfl rfl

/-- Every point appended by `storeChunksInQdrant` is tagged "text". -/
theorem storeChunksInQdrant_mem (embed : Str → List Int) (idGen : Nat → Str) (now : Str)
    (userId documentId : Str) (chunks : List (Str × Str)) (store : List Point) :
    ∀ p ∈ storeChunksInQdrant embed idGen now userId documentId chunks store,
      p ∈ store ∨ p.payload.source_type = "text".data := by
  intro p hp
  unfold storeChunksInQdrant at hp
  by_cases h : chunks = []
  · rw [if_pos h] at hp
    exact Or.inl hp
  · rw [if_neg h] at hp
    rcases List.mem_append.mp hp with h1 | h1
    · exact Or.inl h1
    · right
      obtain ⟨ic, _, rfl⟩ := List.mem_map.mp h1
      rfl

/-- C10: every point written to the vector store by `storeChunksInQdrant`
carries the constant payload source_type "text"; in particular every
point a PDF pipeline run adds to the store is tagged "text", so the
payload source-kind never reflects the pdf file kind. -/
theorem storeChunks_source_type_constant (embed : Str → List Int) (idGen : Nat → Str)
    (now : Str) (userId documentId : Str) (chunks : List (Str × Str))
    (store : List Point) (env : PipelineEnv) (docId uId : Str) (st : PipelineSt) :
    (∀ p ∈ storeChunksInQdrant embed idGen now userId documentId chunks store,
        p ∈ store ∨ p.payload.source_type = "text".data)
      ∧ (∀ p ∈ (processPDFInBackground env docId uId st).2.store,
          p ∈ st.store ∨ p.payload.source_type = "text".data) := by
  refine ⟨storeChunksInQdrant_mem embed idGen now userId documentId chunks store, ?_⟩
  intro p hp
  cases hres : (processPDFInBackground env docId uId st).1 with
  | error msg =>
    obtain ⟨st', _, _, hs, heq⟩ := processPDF_error_run env docId uId st msg hres
    rw [heq, pdfCatchHandler_store] at hp
    rw [hs] at hp
    exact Or.inl hp
  | ok u =>
    cases hp2 : env.pdfParse with
    | error e =>
      rw [show (processPDFInBackground env docId uId st)
          = pdfCatchHandler env e st by simp [processPDFInBackground, hp2]] at hres
      simp [pdfCatchHandler] at hres
    | ok extractedText =>
      by_cases h1 : trimChars extractedText = []
      · rw [show (processPDFInBackground env docId uId st)
            = pdfCatchHandler env "No text could be extracted from the PDF".data st by
            simp [processPDFInBackground, hp2, h1]] at hres
        simp [pdfCatchHandler] at hres
      · cases hc : env.contentUpdate with
        | error e =>
          rw [show (processPDFInBackground env docId uId st)
              = pdfCatchHandler env e st by
              simp [processPDFInBackground, hp2, h1, hc]] at hres
          simp [pdfCatchHandler] at hres
        | ok u1 =>
          by_cases h2 : chunkText extractedText 300 = []
          · rw [show (processPDFInBackground env docId uId st)
                = pdfCatchHandler env
                  "No chunks could be created from the extracted text".data
                  { st with docContent := extractedText } by
                simp [processPDFInBackground, hp2, h1, hc, h2]] at hres
            simp [pdfCatchHandler] at hres
          · cases hk : env.chunkCreate with
            | error e =>
              rw [show (processPDFInBackground env docId uId st)
                  = pdfCatchHandler env e { st with docContent := extractedText } by
                  simp [processPDFInBackground, hp2, h1, hc, h2, hk]] at hres
              simp [pdfCatchHandler] at hres
            | ok u2 =>
              cases hu : env.upsert with
              | error e =>
                obtain ⟨st', _, _, hs, heq⟩ := processPDF_error_run env docId uId st e
                  (by simp [processPDFInBackground, hp2, h1, hc, h2, hk, hu, pdfCatchHandler])
                rw [heq, pdfCatchHandler_store, hs] at hp
                exact Or.inl hp
              | ok u3 =>
                have hrun : (processPDFInBackground env docId uId st).2.store
                    = storeChunksInQdrant env.embed env.pointIdGen env.now uId docId
                      ((chunkText extractedText 300).enum.map
                        (fun ic => (env.chunkIdGen ic.1, ic.2))) st.store := by
                  simp [processPDFInBackground, hp2, h1, hc, h2, hk, hu, attemptBlobDelete]
                rw [hrun] at hp
                exact storeChunksInQdrant_mem env.embed env.pointIdGen env.now uId docId
                  _ st.store p hp


/-- A conversation turn. -/
structure ChatMsg where
  role : Str
  content : Str
deriving DecidableEq

/-- The oracle bundle of one chat request: the retrieval outcome, the two
generation outcomes, and the outcome of the conversation update write. -/
structure ChatOracles where
  search : Except Str (List SearchHit)
  ragResponse : Except Str Str
  generalResponse : Except Str Str
  update : Except Str Unit

/-- The retrieval-and-generation stage of the chat handler: with useRAG,
search first and generate with RAG exactly when at least one chunk came
back, otherwise (or without useRAG) generate with the general model; the
first failure aborts the stage. -/
def chatOutcome (o : ChatOracles) (useRAG : Bool) : Except Str (Str × List SearchHit) :=
  if useRAG then
    match o.search with
    | .error e => .error e
    | .ok hits =>
      if hits.length > 0 then
        match o.ragResponse with
        | .error e => .error e
        | .ok resp => .ok (resp, hits)
      else
        match o.generalResponse with
        | .error e => .error e
        | .ok resp => .ok (resp, hits)
  else
    match o.generalResponse with
    | .error e => .error e
    | .ok resp => .ok (resp, [])

/-- The chat `POST /` handler (second part of document.routes.ts, lines
201-275): append the user turn in memory, run retrieval and generation,
append the assistant turn in memory, and only then persist the whole
message list with a single update; the catch turns any failure into a
request error, leaving the stored conversation untouched.  The response
carries the assistant text and, under useRAG, the retrieved chunk ids,
document ids and scores but never the chunk texts. -/
def chatHandler (o : ChatOracles) (useRAG : Bool) (stored : List ChatMsg)
    (message : Str) : Except Str (Str × List (Str × Str × Int)) × List ChatMsg :=
  match chatOutcome o useRAG with
  | .error e => (.error e, stored)
  | .ok rh =>
    match o.update with
    | .error e => (.error e, stored)
    | .ok _ =>
      (.ok (rh.1, if useRAG then rh.2.map (fun c => (c.chunk_id, c.document_id, c.score))
          else []),
        stored ++ [{ role := "user".data, content := message },
          { role := "assistant".data, content := rh.1 }])

/-- C8 (amended): chat persistence is all-or-nothing: on any failure of
retrieval, generation or the conversation write the request surfaces an
error and the persisted conversation is completely untouched — in
particular the failing request's user turn is NOT persisted; on success
exactly one user turn followed by exactly one assistant turn is appended,
never reordered or truncated. -/
theorem chatHandler_persistence (o : ChatOracles) (useRAG : Bool)
    (stored : List ChatMsg) (message : Str) :
    (∀ e, (chatHandler o useRAG stored message).1 = .error e →
        (chatHandler o useRAG stored message).2 = stored)
      ∧ (∀ resp retrieved,
          (chatHandler o useRAG stored message).1 = .ok (resp, retrieved) →
          (chatHandler o useRAG stored message).2
            = stored ++ [{ role := "user".data, content := message },
                { role := "assistant".data, content := resp }]) := by
  cases hout : chatOutcome o useRAG with
  | error e0 =>
    constructor
    · intro e _
      simp [chatHandler, hout]
    · intro resp retrieved h
      simp [chatHandler, hout] at h
  | ok rh =>
    cases hupd : o.update with
    | error e0 =>
      constructor
      · intro e _
        simp [chatHandler, hout, hupd]
      · intro resp retrieved h
        simp [chatHandler, hout, hupd] at h
    | ok u =>
      constructor
      · intro e he
        simp [chatHandler, hout, hupd] at he
      · intro resp retrieved h
        simp only [chatHandler, hout, hupd, Except.ok.injEq, Prod.mk.injEq] at h ⊢
        rw [h.1]

/-- The chat oracle bundle of the failing scenario: retrieval throws. -/
def oraclesSearchFail : ChatOracles :=
  { search := .error "vector store down".data, ragResponse := .ok "fine".data,
    generalResponse := .ok "fine".data, update := .ok () }

/-- C8 counterexample: when retrieval fails, nothing at all is persisted:
starting from an empty conversation the stored list stays empty, so the
user turn does NOT remain persisted (the single update runs only after
generation). -/
theorem chatHandler_user_turn_counterexample :
    (chatHandler oraclesSearchFail true [] "hi".data).1 = .error "vector store down".data
      ∧ (chatHandler oraclesSearchFail true [] "hi".data).2 = []
      ∧ ({ role := "user".data, content := "hi".data } : ChatMsg)
          ∉ (chatHandler oraclesSearchFail true [] "hi".data).2 := by
  refine ⟨rfl, rfl, by decide⟩

/-- The chat oracle bundle of the succeeding scenario. -/
def oraclesChatOk : ChatOracles :=
  { search := .ok [], ragResponse := .ok "sure".data,
    generalResponse := .ok "sure".data, update := .ok () }

/-- Instantiation of the persistence theorem at a succeeding request. -/
theorem chatHandler_persistence_witness :
    (chatHandler oraclesChatOk true [] "hi".data).2
      = [] ++ [{ role := "user".data, content := "hi".data },
          { role := "assistant".data, content := "sure".data }] :=
  (chatHandler_persistence oraclesChatOk true [] "hi".data).2 "sure".data [] rfl

/-- A chunk row of the relational store. -/
structure ChunkRow where
  id : Str
  documentId : Str
  userId : Str
  content : Str
deriving DecidableEq

/-- A document row of the relational store. -/
structure DocumentRow where
  id : Str
  userId : Str
  fileType : Str
  content : Str
deriving DecidableEq

/-- The relational tables the delete endpoint touches. -/
structure RelState where
  documents : List DocumentRow
  chunkRows : List ChunkRow
  eventRows : List EventRow
deriving DecidableEq

/-- `deleteDocumentChunks` (qdrant.service.ts lines 115-138): qdrant
delete with must conditions on both the tenant and the document. -/
def deleteDocumentChunks (store : List Point) (userId documentId : Str) : List Point :=
  store.filter (fun p =>
    !(matchesFilter [{ key := "user_id".data, value := userId },
        { key := "document_id".data, value := documentId }] p))

/-- Modelled from the spec: the relational store cascade-deletes a
document's Chunks and DetectedEvents together with the document row
(spec section 6: cascade delete of Chunks and DetectedEvents when a
Document is deleted; the Prisma schema that declares the cascade is not
among the sources). -/
def cascadeDeleteDocument (rel : RelState) (documentId : Str) : RelState :=
  { documents := rel.documents.filter (fun d => !(d.id == documentId)),
    chunkRows := rel.chunkRows.filter (fun c => !(c.documentId == documentId)),
    eventRows := rel.eventRows.filter (fun e => !(e.documentId == documentId)) }

/-- The outcome of the delete endpoint. -/
inductive DeleteOutcome where
  | notFound
  | deleted
deriving DecidableEq

/-- The `DELETE /:documentId` handler (document.routes.ts lines 156-188):
tenant-scoped lookup with 404 when absent, then the vector delete (whose
failure is only logged, the deletion then continuing on the relational
side alone), then the relational delete with its cascades. -/
def deleteDocumentHandler (qdrantOk : Bool) (rel : RelState) (store : List Point)
    (userId documentId : Str) : DeleteOutcome × RelState × List Point :=
  match rel.documents.find? (fun d => d.id == documentId && d.userId == userId) with
  | none => (.notFound, rel, store)
  | some _ =>
    let store2 := if qdrantOk then deleteDocumentChunks store userId documentId else store
    (.deleted, cascadeDeleteDocument rel documentId, store2)

theorem matchesFilter_user_doc (u d : Str) (p : Point) :
    matchesFilter [{ key := "user_id".data, value := u },
        { key := "document_id".data, value := d }] p
      = (p.payload.user_id == u && p.payload.document_id == d) := by
  have h1 : ("document_id".data = "user_id".data) = False := by
    simp only [eq_iff_iff, iff_false]
    decide
  simp [matchesFilter, payloadField, h1]

/-- Splitting a filtered count along a second test. -/
theorem length_filter_split (l : List α) (p q : α → Bool) :
    (l.filter (fun a => p a && !(q a))).length + (l.filter (fun a => p a && q a)).length
      = (l.filter p).length := by
  induction l with
  | nil => rfl
  | cons x xs ih =>
    by_cases hp : p x = true <;> by_cases hq : q x = true <;>
      simp [List.filter_cons, hp, hq] <;> omega

/-- C9: deleting a document with N chunks removes the document row, all
of its chunk rows and DetectedEvents, and exactly its vector points:
under the invariant that the store holds exactly N points for the
(tenant, document) pair, the tenant ends with exactly N fewer points,
every other tenant's point survives, and no point of the deleted document
survives. -/
theorem deleteDocument_consistency (qdrantOk : Bool) (rel : RelState)
    (store : List Point) (userId documentId : Str) (doc : DocumentRow) (N : Nat)
    (hfound : rel.documents.find? (fun d => d.id == documentId && d.userId == userId)
        = some doc)
    (hq : qdrantOk = true)
    (hchunks : (rel.chunkRows.filter (fun c => c.documentId == documentId)).length = N)
    (hpoints : (store.filter (fun p => p.payload.user_id == userId
        && p.payload.document_id == documentId)).length = N) :
    ((deleteDocumentHandler qdrantOk rel store userId documentId).2.2.filter
          (fun p => p.payload.user_id == userId)).length + N
        = (store.filter (fun p => p.payload.user_id == userId)).length
      ∧ ((deleteDocumentHandler qdrantOk rel store userId documentId).2.1.eventRows.filter
          (fun e => e.documentId == documentId)) = []
      ∧ ((deleteDocumentHandler qdrantOk rel store userId documentId).2.1.chunkRows.filter
          (fun c => c.documentId == documentId)) = []
      ∧ ((deleteDocumentHandler qdrantOk rel store userId documentId).2.1.documents.filter
          (fun d => d.id == documentId)) = []
      ∧ (∀ p ∈ (deleteDocumentHandler qdrantOk rel store userId documentId).2.2,
          ¬(p.payload.user_id = userId ∧ p.payload.document_id = documentId))
      ∧ (∀ p ∈ store, p.payload.user_id ≠ userId →
          p ∈ (deleteDocumentHandler qdrantOk rel store userId documentId).2.2)
      ∧ (deleteDocumentHandler qdrantOk rel store userId documentId).1 = .deleted := by
  subst hq
  have hrun : deleteDocumentHandler true rel store userId documentId
      = (.deleted, cascadeDeleteDocument rel documentId,
          deleteDocumentChunks store userId documentId) := by
    simp [deleteDocumentHandler, hfound]
  rw [hrun]
  have hpred : ∀ p : Point,
      (!(matchesFilter [{ key := "user_id".data, value := userId },
          { key := "document_id".data, value := documentId }] p))
        = !(p.payload.user_id == userId && p.payload.document_id == documentId) := by
    intro p
    rw [matchesFilter_user_doc]
  refine ⟨?_, ?_, ?_, ?_, ?_, ?_, rfl⟩
  · show ((deleteDocumentChunks store userId documentId).filter
        (fun p => p.payload.user_id == userId)).length + N
      = (store.filter (fun p => p.payload.user_id == userId)).length
    unfold deleteDocumentChunks
    rw [List.filter_congr (fun p _ => hpred p), List.filter_filter]
    have hcongr : store.filter (fun a => a.payload.user_id == userId
          && !(a.payload.user_id == userId && a.payload.document_id == documentId))
        = store.filter (fun a => a.payload.user_id == userId
          && !(a.payload.document_id == documentId)) :=
      List.filter_congr (fun p _ => by
        cases hu : (p.payload.user_id == userId) <;>
          cases hd : (p.payload.document_id == documentId) <;> rfl)
    rw [hcongr, ← hpoints]
    exact length_filter_split store (fun x => x.payload.user_id == userId)
      (fun x => x.payload.document_id == documentId)
  · show ((cascadeDeleteDocument rel documentId).eventRows.filter
        (fun e => e.documentId == documentId)) = []
    unfold cascadeDeleteDocument
    rw [List.filter_filter]
    apply List.filter_eq_nil_iff.mpr
    intro a _
    cases hd : (a.documentId == documentId) <;> simp [hd]
  · show ((cascadeDeleteDocument rel documentId).chunkRows.filter
        (fun c => c.documentId == documentId)) = []
    unfold cascadeDeleteDocument
    rw [List.filter_filter]
    apply List.filter_eq_nil_iff.mpr
    intro a _
    cases hd : (a.documentId == documentId) <;> simp [hd]
  · show ((cascadeDeleteDocument rel documentId).documents.filter
        (fun d => d.id == documentId)) = []
    unfold cascadeDeleteDocument
    rw [List.filter_filter]
    apply List.filter_eq_nil_iff.mpr
    intro a _
    cases hd : (a.id == documentId) <;> simp [hd]
  · intro p hp hcontra
    unfold deleteDocumentChunks at hp
    have h2 := (List.mem_filter.mp hp).2
    rw [hpred p] at h2
    simp [hcontra.1, hcontra.2] at h2
  · intro p hp hne
    unfold deleteDocumentChunks
    apply List.mem_filter.mpr
    refine ⟨hp, ?_⟩
    rw [hpred p]
    simp
    exact Or.inl hne


/-- A concrete document row for the deletion scenario. -/
def docRowD1 : DocumentRow :=
  { id := "d1".data, userId := "alice".data, fileType := "text".data,
    content := "hello".data }

/-- A concrete chunk row of document d1. -/
def chunkRowC1 : ChunkRow :=
  { id := "c1".data, documentId := "d1".data, userId := "alice".data,
    content := "hello".data }

/-- A DetectedEvent row of document d1 owned by alice. -/
def eventRowD1 : EventRow :=
  { userId := "alice".data, documentId := "d1".data, title := "Standup".data,
    startTime := none, endTime := none, recurrence := .str "daily".data,
    confidence := 1, sourceText := "s".data }

/-- A relational state holding document d1 with one chunk and one event. -/
def relOne : RelState :=
  { documents := [docRowD1], chunkRows := [chunkRowC1], eventRows := [eventRowD1] }

/-- Instantiation of the deletion consistency theorem: deleting document
d1 of tenant alice removes its one chunk, its one event and its one
vector point, leaving bob's point alone. -/
theorem deleteDocument_consistency_witness :
    ((deleteDocumentHandler true relOne [pointAlice, pointBob]
            "alice".data "d1".data).2.2.filter
          (fun p => p.payload.user_id == "alice".data)).length + 1
        = ([pointAlice, pointBob].filter
            (fun p => p.payload.user_id == "alice".data)).length
      ∧ ((deleteDocumentHandler true relOne [pointAlice, pointBob]
            "alice".data "d1".data).2.1.eventRows.filter
          (fun e => e.documentId == "d1".data)) = []
      ∧ ((deleteDocumentHandler true relOne [pointAlice, pointBob]
            "alice".data "d1".data).2.1.chunkRows.filter
          (fun c => c.documentId == "d1".data)) = []
      ∧ ((deleteDocumentHandler true relOne [pointAlice, pointBob]
            "alice".data "d1".data).2.1.documents.filter
          (fun d => d.id == "d1".data)) = []
      ∧ (∀ p ∈ (deleteDocumentHandler true relOne [pointAlice, pointBob]
            "alice".data "d1".data).2.2,
          ¬(p.payload.user_id = "alice".data ∧ p.payload.document_id = "d1".data))
      ∧ (∀ p ∈ [pointAlice, pointBob], p.payload.user_id ≠ "alice".data →
          p ∈ (deleteDocumentHandler true relOne [pointAlice, pointBob]
            "alice".data "d1".data).2.2)
      ∧ (deleteDocumentHandler true relOne [pointAlice, pointBob]
          "alice".data "d1".data).1 = .deleted :=
  deleteDocument_consistency true relOne [pointAlice, pointBob]
    "alice".data "d1".data docRowD1 1 rfl rfl (by decide) (by decide)

end Dorry
